import Mathlib

/-!
Shallow embedding of the `whcjob777-web/stock` scripts
(`tools.py`, `merge_pdfs.py`, `option_analysis.py`, `process.py`).

External effects (the yfinance network client, `time.sleep`, the filesystem)
are modelled by explicit oracles: an attempt oracle describes what the
provider returns on each attempt, and the sleeps performed by the retry
loops are collected into a list so that the backoff schedule is observable.
Prices are rationals; `round(x, 2)` is modelled by `round2`.
-/

namespace Stock

/-- Python `round(x, 2)` on a price value: rounding to two decimal places. -/
def round2 (q : ℚ) : ℚ := (round (q * 100) : ℤ) / 100

/-- The per-symbol record built by `fetch_stock_data` (tools.py, lines 80-85).
A Lean structure always carries all four fields, mirroring the fact that the
code populates every field of the dict at once. -/
structure TickerRecord where
  symbol : String
  price : ℚ
  change : ℚ
  change_percent : ℚ
  deriving Repr, DecidableEq

/-- Outcome of one `ticker.history(period=period)` attempt inside
`fetch_single_ticker` (tools.py, lines 43-55): either the history (a list of
closing prices), a rate-limit exception ("Too Many Requests"/"Rate limited"),
or some other exception. -/
inductive FetchOutcome where
  | ok (hist : List ℚ)
  | rateLimit
  | err
  deriving Repr, DecidableEq

/-- The retry loop of `fetch_single_ticker` (tools.py, lines 41-56).
`attempt` is the current 0-based attempt index, `fuel` the number of loop
iterations left (`max_retries - attempt`).  Returns the result together with
the list of `time.sleep` durations performed, in order. -/
def fetchSingleAux (oc : ℕ → FetchOutcome) : ℕ → ℕ → Option (List ℚ) × List ℕ
  | _, 0 => (none, [])
  | attempt, fuel + 1 =>
    match oc attempt with
    | .ok h => (some h, [])
    | .rateLimit =>
      -- wait_time = (attempt + 1) * 5, then `continue`
      let wait := (attempt + 1) * 5
      let rest := fetchSingleAux oc (attempt + 1) fuel
      (rest.1, wait :: rest.2)
    | .err =>
      -- non-rate-limit exception: `return None` immediately, no sleep
      (none, [])

/-- `fetch_single_ticker` (tools.py, lines 37-56): `max_retries = 3`. -/
def fetch_single_ticker (oc : ℕ → FetchOutcome) : Option (List ℚ) × List ℕ :=
  fetchSingleAux oc 0 3

/-- The record derivation inside the loop body of `fetch_stock_data`
(tools.py, lines 70-87), applied to the close-price series of one symbol.
`closes.reverse` exposes `iloc[-1]` (head) and `iloc[-2]` (second element);
`len(hist) > 1` is exactly "the reversed tail is nonempty".  An empty series
(`hist.empty`) yields no record. -/
def buildRecord (symbol : String) (closes : List ℚ) : Option TickerRecord :=
  match closes.reverse with
  | [] => none
  | current :: rest =>
    let cc : ℚ × ℚ :=
      match rest with
      | [] => (0, 0)
      | previous :: _ =>
        (current - previous, (current - previous) / previous * 100)
    some { symbol := symbol, price := round2 current,
           change := round2 cc.1, change_percent := round2 cc.2 }

/-- Python dict assignment `data[name] = v` on an insertion-ordered
association list: an existing key keeps its position and gets the new value,
a fresh key is appended. -/
def store (m : List (String × Option TickerRecord)) (k : String)
    (v : Option TickerRecord) : List (String × Option TickerRecord) :=
  if m.any (fun p => p.1 = k) then
    m.map (fun p => if p.1 = k then (k, v) else p)
  else
    m ++ [(k, v)]

/-- The loop of `fetch_stock_data` (tools.py, lines 65-95).  `oracle i` is the
attempt oracle of the i-th symbol's `fetch_single_ticker` call.  A `None` or
empty history, and any exception, all store `None` for the symbol's name. -/
def fetchStockAux (oracle : ℕ → ℕ → FetchOutcome) :
    ℕ → List (String × String) → List (String × Option TickerRecord) →
    List (String × Option TickerRecord)
  | _, [], data => data
  | i, (symbol, name) :: rest, data =>
    let v : Option TickerRecord :=
      match (fetch_single_ticker (oracle i)).1 with
      | some h => buildRecord symbol h
      | none => none
    fetchStockAux oracle (i + 1) rest (store data name v)

/-- `fetch_stock_data` (tools.py, lines 58-97): iterates over the
symbol-to-display-name mapping in order, accumulating `data`. -/
def fetch_stock_data (symbols : List (String × String))
    (oracle : ℕ → ℕ → FetchOutcome) : List (String × Option TickerRecord) :=
  fetchStockAux oracle 0 symbols []

/-! ### Numeric formatting (tools.py `create_table_data`, `create_bar_chart`)

The derived values are rationals with denominator dividing 100 (they come out
of `round(_, 2)`), so Python's float rendering is modelled on centi-units:
`fmtPlus2` is the f-string `"{x:+.2f}"`, `pyFloatStr` is plain `str(x)`. -/

/-- The digits of a non-negative centi-value, always with two decimals. -/
def centiDigits (a : ℕ) : String :=
  toString (a / 100) ++ "." ++ (if a % 100 < 10 then "0" else "") ++ toString (a % 100)

/-- Python `f"{q:+.2f}"`: explicit sign (`+` for non-negative), two decimals. -/
def fmtPlus2 (q : ℚ) : String :=
  (if q < 0 then "-" else "+") ++ centiDigits (round (q * 100)).natAbs

/-- Python `str(q)` for a two-decimal float value: `-` only for negatives,
no `+`, trailing zeros of the fraction trimmed down to at least one digit
(`str(1.0) = "1.0"`, `str(1.2) = "1.2"`, `str(1.05) = "1.05"`). -/
def pyFloatStr (q : ℚ) : String :=
  let c : ℤ := round (q * 100)
  let a := c.natAbs
  let fr := a % 100
  (if c < 0 then "-" else "") ++ toString (a / 100) ++ "." ++
    (if fr % 10 = 0 then toString (fr / 10)
     else (if fr < 10 then "0" else "") ++ toString fr)

/-- One data row of `create_table_data` (tools.py, lines 106-112). -/
def table_row (name : String) (info : Option TickerRecord) : List String :=
  match info with
  | some i =>
    [name, i.symbol, pyFloatStr i.price, fmtPlus2 i.change, fmtPlus2 i.change_percent]
  | none => [name, "N/A", "N/A", "N/A", "N/A"]

/-- `create_table_data` (tools.py, lines 99-114). -/
def create_table_data (title : String) (data : List (String × Option TickerRecord)) :
    List (List String) :=
  [title, "", "", "", ""] :: ["名称", "代码", "价格", "涨跌额", "涨跌幅(%)"] ::
    data.map (fun p => table_row p.1 p.2)

/-! ### Bar chart (tools.py `create_bar_chart`, lines 213-272) -/

/-- `valid_data = {name: info for name, info in data.items() if info}`. -/
def valid_data (data : List (String × Option TickerRecord)) :
    List (String × TickerRecord) :=
  data.filterMap (fun p => p.2.map (fun i => (p.1, i)))

/-- The category labels `f"{name}({info['change_percent']}%)"` (line 227). -/
def bar_names (data : List (String × Option TickerRecord)) : List String :=
  (valid_data data).map (fun p => p.1 ++ "(" ++ pyFloatStr p.2.change_percent ++ "%)")

/-- The bar values `changes` (line 228). -/
def bar_changes (data : List (String × Option TickerRecord)) : List ℚ :=
  (valid_data data).map (fun p => p.2.change_percent)

/-- Python `min` over a list; the empty case (a `ValueError` in Python) is
unreachable behind the `if not valid_data` guard. -/
def pyMin (l : List ℚ) : ℚ :=
  match l with
  | [] => 0
  | x :: xs => xs.foldl min x

/-- Python `max` over a list, as `pyMin`. -/
def pyMax (l : List ℚ) : ℚ :=
  match l with
  | [] => 0
  | x :: xs => xs.foldl max x

/-- `(bc.valueAxis.valueMin, bc.valueAxis.valueMax)` (tools.py, lines 244-245):
`min(changes) - 1 if min(changes) < 0 else -1` and
`max(changes) + 1 if max(changes) > 0 else 1`. -/
def axisBounds (changes : List ℚ) : ℚ × ℚ :=
  (if pyMin changes < 0 then pyMin changes - 1 else -1,
   if pyMax changes > 0 then pyMax changes + 1 else 1)

/-! ### Dates (tools.py `get_previous_weekday`, report filenames)

Days are indexed by naturals with a Monday epoch, so that Python's
`weekday()` of day `d` is `d % 7` (5 = Saturday, 6 = Sunday). -/

/-- Python `datetime.weekday()` of day index `d`. -/
def weekday (d : ℕ) : ℕ := d % 7

/-- `get_previous_weekday` (tools.py, lines 22-35), on day indices. -/
def get_previous_weekday (today : ℕ) : ℕ :=
  if weekday today = 6 then today - 2
  else if weekday today = 5 then today - 1
  else today

/-- Date stamp of the market-data report (tools.py, line 171). -/
def stock_report_date (today : ℕ) : ℕ := get_previous_weekday today

/-- Date stamp of the options report: `time.strftime('%Y%m%d')` of "now"
(tools.py, line 434). -/
def options_report_date (today : ℕ) : ℕ := today

/-- The market-data report's output filename (tools.py, line 171). -/
def stock_pdf_filename (today : ℕ) : String :=
  "美股市场每日数据_" ++ toString (stock_report_date today) ++ ".pdf"

/-- The options report's output filename (tools.py, line 434). -/
def options_pdf_filename (today : ℕ) : String :=
  "期权未平仓数据分析_" ++ toString (options_report_date today) ++ ".pdf"

/-! ### Options fetch (tools.py `get_option_data`, lines 274-347) -/

/-- The expiration-window filter (tools.py, lines 303-315): keep expirations
`e` with `current_date <= e <= current_date + 30 days`; when none qualify,
fall back to the provider's first expiration. -/
def nearest_expirations (now : ℕ) (exps : List ℕ) : List ℕ :=
  let window := exps.filter (fun e => decide (now ≤ e) && decide (e ≤ now + 30))
  if window.isEmpty then
    match exps with
    | [] => []
    | e :: _ => [e]
  else window

/-- Classification of an exception reaching the outer `except` clauses:
`yf.exceptions.YFRateLimitError` or anything else. -/
inductive StepError where
  | rateLimit
  | other
  deriving Repr, DecidableEq

/-- The `ticker.info` price fields consulted by the fallback chain
(tools.py, lines 287-293). -/
structure PriceInfo where
  regularMarketPrice : Option ℚ
  currentPrice : Option ℚ
  previousClose : Option ℚ
  deriving Repr, DecidableEq

/-- The price-resolution fallback chain inside the inner `try` (tools.py,
lines 284-295): a raising `ticker.info` (`none`) or three missing fields
leave `stock_price = None`; the inner `except` swallows the exception. -/
def resolvePrice : Option PriceInfo → Option ℚ
  | none => none
  | some info =>
    match info.regularMarketPrice with
    | some p => some p
    | none =>
      match info.currentPrice with
      | some p => some p
      | none => info.previousClose

/-- What the provider does during one attempt of `get_option_data`:
`options` is `ticker.options` (or the exception it raises), `info` is
`ticker.info` (`none` when it raises), `chain e` is
`ticker.option_chain(e)` with abstract chain data `α`. -/
structure OptionAttempt (α : Type) where
  options : Except StepError (List ℕ)
  info : Option PriceInfo
  chain : ℕ → Except StepError α

/-- The loop `for expiration in nearest_expirations: option_chains.append(...)`
(tools.py, lines 318-324); a raising `option_chain` propagates. -/
def fetchChains {α : Type} (ch : ℕ → Except StepError α) :
    List ℕ → Except StepError (List (ℕ × α))
  | [] => .ok []
  | e :: rest =>
    match ch e with
    | .error s => .error s
    | .ok c =>
      match fetchChains ch rest with
      | .error s => .error s
      | .ok cs => .ok ((e, c) :: cs)

/-- The body of one attempt of `get_option_data` (tools.py, lines 279-329):
empty `expiration_dates` reaches the bare `raise` (a generic exception). -/
def runAttempt {α : Type} (now : ℕ) (a : OptionAttempt α) :
    Except StepError (List (ℕ × α) × Option ℚ) :=
  match a.options with
  | .error s => .error s
  | .ok [] => .error .other
  | .ok (e0 :: es) =>
    match fetchChains a.chain (nearest_expirations now (e0 :: es)) with
    | .error s => .error s
    | .ok chains => .ok (chains, resolvePrice a.info)

/-- The retry loop of `get_option_data` (tools.py, lines 278-347): on an
error with attempts left, sleep 10s (rate limit) or 5s (other) and retry;
on the last attempt return `(None, None)`.  Sleeps are collected. -/
def getOptionAux {α : Type} (now : ℕ) (att : ℕ → OptionAttempt α) :
    ℕ → ℕ → (Option (List (ℕ × α)) × Option ℚ) × List ℕ
  | _, 0 => ((none, none), [])
  | attempt, fuel + 1 =>
    match runAttempt now (att attempt) with
    | .ok r => ((some r.1, r.2), [])
    | .error s =>
      match fuel with
      | 0 => ((none, none), [])
      | _ + 1 =>
        let w : ℕ := match s with | .rateLimit => 10 | .other => 5
        let rest := getOptionAux now att (attempt + 1) fuel
        (rest.1, w :: rest.2)

/-- `get_option_data` (tools.py, lines 274-347) with `max_retries = 3`. -/
def get_option_data {α : Type} (now : ℕ) (att : ℕ → OptionAttempt α) :
    (Option (List (ℕ × α)) × Option ℚ) × List ℕ :=
  getOptionAux now att 0 3

/-! ### PDF merge (merge_pdfs.py `merge_pdfs`, lines 9-61) -/

/-- A PDF file on disk: path, modification time, page contents. -/
structure PdfFile where
  path : String
  mtime : ℕ
  pages : List String
  deriving Repr, DecidableEq

/-- `files.sort(key=os.path.getmtime, reverse=True)`: Python's sort is
stable, so equal mtimes keep glob order; `mergeSort` is stable too. -/
def sortByMtimeDesc (files : List PdfFile) : List PdfFile :=
  files.mergeSort (fun a b => decide (b.mtime ≤ a.mtime))

/-- Observable outcome of `merge_pdfs`: the written output (path and pages)
and the deleted source paths. -/
structure MergeResult where
  output : Option (String × List String)
  deleted : List String
  deriving Repr, DecidableEq

/-- `merge_pdfs` (merge_pdfs.py, lines 9-61): pick the most recently modified
match of each pattern; if either pattern matches nothing, report and return;
otherwise append stock pages then option pages and unlink both sources. -/
def merge_pdfs (today : ℕ) (stockReports optionReports : List PdfFile) :
    MergeResult :=
  match (sortByMtimeDesc stockReports).head? with
  | none => { output := none, deleted := [] }
  | some latestStock =>
    match (sortByMtimeDesc optionReports).head? with
    | none => { output := none, deleted := [] }
    | some latestOption =>
      { output := some ("output/综合市场分析报告_" ++ toString today ++ ".pdf",
                        latestStock.pages ++ latestOption.pages),
        deleted := [latestStock.path, latestOption.path] }

/-! ## Helper lemmas and characterizations -/

/-- The record a single symbol contributes: the `fetch_single_ticker` result
run through the body of the `fetch_stock_data` loop. -/
def expectedRecord (att : ℕ → FetchOutcome) (symbol : String) : Option TickerRecord :=
  match (fetch_single_ticker att).1 with
  | some h => buildRecord symbol h
  | none => none

/-- The rows `fetch_stock_data` produces when no display name repeats. -/
def expectedRows (oracle : ℕ → ℕ → FetchOutcome) :
    ℕ → List (String × String) → List (String × Option TickerRecord)
  | _, [] => []
  | i, (s, n) :: rest => (n, expectedRecord (oracle i) s) :: expectedRows oracle (i + 1) rest

theorem round2_zero : round2 0 = 0 := by
  simp [round2]

theorem store_fresh (m : List (String × Option TickerRecord)) (k : String)
    (v : Option TickerRecord) (h : k ∉ m.map Prod.fst) :
    store m k v = m ++ [(k, v)] := by
  have hf : m.any (fun p => p.1 = k) = false := by
    rw [List.any_eq_false]
    intro p hp
    intro hk
    exact h (List.mem_map.mpr ⟨p, hp, by simpa using hk⟩)
  simp [store, hf]

theorem store_keys (m : List (String × Option TickerRecord)) (k : String)
    (v : Option TickerRecord) (n : String) :
    n ∈ (store m k v).map Prod.fst ↔ n ∈ m.map Prod.fst ∨ n = k := by
  unfold store
  by_cases hany : m.any (fun p => p.1 = k) = true
  · rw [if_pos hany, List.map_map]
    simp only [List.any_eq_true, decide_eq_true_eq] at hany
    obtain ⟨q, hq, hqk⟩ := hany
    simp only [List.mem_map, Function.comp_apply]
    constructor
    · rintro ⟨p, hp, hpe⟩
      by_cases hpk : p.1 = k
      · right
        exact (show k = n by simpa [hpk] using hpe).symm
      · left
        exact ⟨p, hp, by simpa [hpk] using hpe⟩
    · rintro (⟨p, hp, hpe⟩ | rfl)
      · by_cases hpk : p.1 = k
        · refine ⟨q, hq, ?_⟩
          simp only [hqk, if_true]
          exact hpk.symm.trans hpe
        · refine ⟨p, hp, ?_⟩
          simpa [hpk] using hpe
      · refine ⟨q, hq, ?_⟩
        simp [hqk]
  · rw [if_neg hany]
    simp

theorem fetchStockAux_keys (oracle : ℕ → ℕ → FetchOutcome)
    (symbols : List (String × String)) :
    ∀ (i : ℕ) (data : List (String × Option TickerRecord)) (n : String),
    (n ∈ (fetchStockAux oracle i symbols data).map Prod.fst ↔
      n ∈ data.map Prod.fst ∨ n ∈ symbols.map Prod.snd) := by
  induction symbols with
  | nil => intro i data n; simp [fetchStockAux]
  | cons p rest ih =>
    intro i data n
    obtain ⟨s, nm⟩ := p
    rw [show fetchStockAux oracle i ((s, nm) :: rest) data =
          fetchStockAux oracle (i + 1) rest
            (store data nm (expectedRecord (oracle i) s)) from rfl]
    rw [ih, store_keys]
    simp only [List.map_cons, List.mem_cons]
    tauto

theorem fetchStockAux_eq (oracle : ℕ → ℕ → FetchOutcome)
    (symbols : List (String × String)) :
    ∀ (i : ℕ) (data : List (String × Option TickerRecord)),
    (symbols.map Prod.snd).Nodup →
    (∀ n ∈ symbols.map Prod.snd, n ∉ data.map Prod.fst) →
    fetchStockAux oracle i symbols data = data ++ expectedRows oracle i symbols := by
  induction symbols with
  | nil => intro i data _ _; simp [fetchStockAux, expectedRows]
  | cons p rest ih =>
    intro i data hnd hdisj
    obtain ⟨s, nm⟩ := p
    rw [show fetchStockAux oracle i ((s, nm) :: rest) data =
          fetchStockAux oracle (i + 1) rest
            (store data nm (expectedRecord (oracle i) s)) from rfl]
    simp only [List.map_cons, List.nodup_cons] at hnd
    have hfresh : nm ∉ data.map Prod.fst := hdisj nm (by simp)
    rw [store_fresh data nm _ hfresh]
    rw [ih (i + 1) _ hnd.2 ?_]
    · simp [expectedRows]
    · intro n hn
      simp only [List.map_append, List.mem_append, List.map_cons, List.map_nil]
      rintro (hd | hs)
      · exact hdisj n (by simp [hn]) hd
      · simp only [List.mem_singleton] at hs
        exact hnd.1 (hs ▸ hn)

/-! ## Claim theorems -/

/-- C1: for every historical close series with at least 2 observations
(`pre ++ [a, b]`, so `close[-2] = a` and `close[-1] = b`), `fetch_stock_data`
computes `change = round2 (b - a)` and
`change_percent = round2 ((b - a) / a * 100)`; for a series with exactly one
observation the change and change_percent fields are both 0. -/
theorem fetch_stock_data_change_formula (s n : String) (pre : List ℚ) (a b c : ℚ) :
    fetch_stock_data [(s, n)] (fun _ _ => .ok (pre ++ [a, b])) =
      [(n, some { symbol := s, price := round2 b, change := round2 (b - a),
                  change_percent := round2 ((b - a) / a * 100) })]
    ∧ fetch_stock_data [(s, n)] (fun _ _ => .ok [c]) =
      [(n, some { symbol := s, price := round2 c, change := 0, change_percent := 0 })] := by
  constructor
  · simp [fetch_stock_data, fetchStockAux, fetch_single_ticker, fetchSingleAux,
      buildRecord, store, List.reverse_append]
  · simp [fetch_stock_data, fetchStockAux, fetch_single_ticker, fetchSingleAux,
      buildRecord, store, round2_zero]

/-- The history result `fetch_single_ticker` extracts from one attempt's
outcome: the frame, or `None` on a non-rate-limit error. -/
def histOf : FetchOutcome → Option (List ℚ)
  | .ok h => some h
  | .rateLimit => none
  | .err => none

/-- C2 counterexample: the claim says a non-rate-limit transient error is
followed by a 5s backoff and a retry; in the code `fetch_single_ticker`
returns `None` immediately on such an error — with attempt 0 erring and a
good response available on attempt 1, the result is `(none, [])` (no sleep,
no retry), not `(some [1], [5])`. -/
theorem fetch_single_ticker_no_retry_on_other_error :
    fetch_single_ticker (fun n => if n = 0 then .err else .ok [1]) = (none, [])
    ∧ ((none, []) : Option (List ℚ) × List ℕ) ≠ (some [1], [5]) := by
  exact ⟨rfl, by simp⟩

/-- C2 amended: each call of `fetch_single_ticker` makes up to 3 attempts;
on a detected rate-limit error the backoff before the next attempt follows
the increasing 5s/10s/15s schedule; on any other error the function returns
`None` immediately without backing off or retrying; after exhausting all
retries it returns `None` rather than raising. -/
theorem fetch_single_ticker_retry_policy (oc : ℕ → FetchOutcome) :
    fetch_single_ticker oc =
      if oc 0 ≠ .rateLimit then (histOf (oc 0), [])
      else if oc 1 ≠ .rateLimit then (histOf (oc 1), [5])
      else if oc 2 ≠ .rateLimit then (histOf (oc 2), [5, 10])
      else (none, [5, 10, 15]) := by
  cases h0 : oc 0 <;> cases h1 : oc 1 <;> cases h2 : oc 2 <;>
    simp [fetch_single_ticker, fetchSingleAux, h0, h1, h2, histOf]

/-- C3 counterexample: for a symbol whose fetch returns an empty series, the
derived record is NOT absent from the result set — the display name is
present as a key, mapped to `None`. -/
theorem fetch_stock_data_key_present_on_empty :
    fetch_stock_data [("A", "Alpha")] (fun _ _ => .ok []) = [("Alpha", none)]
    ∧ "Alpha" ∈ (fetch_stock_data [("A", "Alpha")] (fun _ _ => .ok [])).map Prod.fst := by
  refine ⟨rfl, ?_⟩
  rw [show fetch_stock_data [("A", "Alpha")] (fun _ _ => .ok []) = [("Alpha", none)] from rfl]
  simp

/-- C3 amended: for a symbol whose fetch returns an empty series or fails
after retry exhaustion, the result maps its display name to `None` (the key
is present, as an explicit absence marker, never a zero-filled or
partially-filled stub), and the failure does not abort the remaining symbols
of the batch: every later symbol still produces its own row. -/
theorem fetch_stock_data_none_on_failure (s1 n1 : String)
    (rest : List (String × String)) (oracle : ℕ → ℕ → FetchOutcome)
    (hnd : (((s1, n1) :: rest).map Prod.snd).Nodup)
    (hfail : (fetch_single_ticker (oracle 0)).1 = none ∨
             (fetch_single_ticker (oracle 0)).1 = some []) :
    fetch_stock_data ((s1, n1) :: rest) oracle =
      (n1, none) :: expectedRows oracle 1 rest := by
  have h := fetchStockAux_eq oracle ((s1, n1) :: rest) 0 [] hnd (by simp)
  rw [fetch_stock_data, h]
  have hrec : expectedRecord (oracle 0) s1 = none := by
    rcases hfail with hf | hf <;> simp [expectedRecord, hf, buildRecord]
  simp [expectedRows, hrec]

/-- C3 witness: with display names `Alpha`, `Beta`, the first symbol's fetch
exhausting its retries, and the second succeeding, the batch still yields a
row for each name, `Alpha` mapped to `None`. -/
theorem fetch_stock_data_none_on_failure_witness :
    fetch_stock_data [("A", "Alpha"), ("B", "Beta")]
        (fun i _ => if i = 0 then .rateLimit else .ok [10, 12]) =
      ("Alpha", none) ::
        expectedRows (fun i _ => if i = 0 then .rateLimit else .ok [10, 12]) 1
          [("B", "Beta")] :=
  fetch_stock_data_none_on_failure "A" "Alpha" [("B", "Beta")]
    (fun i _ => if i = 0 then .rateLimit else .ok [10, 12])
    (by simp) (Or.inl rfl)

/-- C9: for every input mapping, the mapping returned by `fetch_stock_data`
has exactly the input's display names as its key set; and when no display
name repeats, each symbol contributes exactly one row, carrying either the
fully-populated four-field record of a successful fetch or `None` on any
failure. -/
theorem fetch_stock_data_key_set (symbols : List (String × String))
    (oracle : ℕ → ℕ → FetchOutcome) :
    (∀ n, n ∈ (fetch_stock_data symbols oracle).map Prod.fst ↔
      n ∈ symbols.map Prod.snd)
    ∧ ((symbols.map Prod.snd).Nodup →
        fetch_stock_data symbols oracle = expectedRows oracle 0 symbols) := by
  constructor
  · intro n
    rw [fetch_stock_data, fetchStockAux_keys]
    simp
  · intro h
    rw [fetch_stock_data, fetchStockAux_eq oracle symbols 0 [] h (by simp)]
    simp

/-- C9 witness at a concrete two-symbol universe. -/
theorem fetch_stock_data_key_set_witness :
    ("Beta" ∈ (fetch_stock_data [("A", "Alpha"), ("B", "Beta")]
        (fun _ _ => .ok [10, 12])).map Prod.fst ↔
      "Beta" ∈ ([("A", "Alpha"), ("B", "Beta")] : List (String × String)).map Prod.snd)
    ∧ fetch_stock_data [("A", "Alpha"), ("B", "Beta")] (fun _ _ => .ok [10, 12]) =
      expectedRows (fun _ _ => .ok [10, 12]) 0 [("A", "Alpha"), ("B", "Beta")] :=
  ⟨(fetch_stock_data_key_set [("A", "Alpha"), ("B", "Beta")]
      (fun _ _ => .ok [10, 12])).1 "Beta",
   (fetch_stock_data_key_set [("A", "Alpha"), ("B", "Beta")]
      (fun _ _ => .ok [10, 12])).2 (by simp)⟩

/-- C5 counterexample: invoked on a Saturday (`weekday 5 = 5`), the options
report's filename is stamped with Saturday's date, not the preceding
Friday's, although `get_previous_weekday` would give Friday. -/
theorem options_report_date_saturday :
    weekday 5 = 5 ∧ options_report_date 5 = 5 ∧ get_previous_weekday 5 = 4
    ∧ options_pdf_filename 5 = "期权未平仓数据分析_5.pdf"
    ∧ options_pdf_filename 5 ≠ "期权未平仓数据分析_4.pdf" := by
  refine ⟨rfl, rfl, by decide, rfl, ?_⟩
  rw [show options_pdf_filename 5 = "期权未平仓数据分析_5.pdf" from rfl]
  decide

/-- C5 amended: the market-data report's output path is stamped with the
most recent trading day (Saturday maps to the preceding Friday, Sunday to
the Friday two days prior, a weekday to itself), while the options report's
output path is stamped with the invocation day unconditionally. -/
theorem report_date_stamps (d : ℕ) :
    (weekday d = 5 → stock_report_date d = d - 1 ∧ weekday (stock_report_date d) = 4)
    ∧ (weekday d = 6 → stock_report_date d = d - 2 ∧ weekday (stock_report_date d) = 4)
    ∧ (weekday d < 5 → stock_report_date d = d)
    ∧ options_report_date d = d := by
  unfold stock_report_date options_report_date get_previous_weekday weekday
  refine ⟨fun h5 => ?_, fun h6 => ?_, fun hw => ?_, rfl⟩
  · rw [if_neg (by omega), if_pos h5]
    exact ⟨rfl, by omega⟩
  · rw [if_pos h6]
    exact ⟨rfl, by omega⟩
  · rw [if_neg (by omega), if_neg (by omega)]

/-- C5 witness: the amended statement at a Saturday (day 5), a Sunday
(day 6) and a Tuesday (day 1). -/
theorem report_date_stamps_witness :
    (stock_report_date 5 = 4 ∧ weekday (stock_report_date 5) = 4)
    ∧ (stock_report_date 6 = 4 ∧ weekday (stock_report_date 6) = 4)
    ∧ stock_report_date 1 = 1 ∧ options_report_date 5 = 5 :=
  ⟨(report_date_stamps 5).1 (by decide),
   (report_date_stamps 6).2.1 (by decide),
   (report_date_stamps 1).2.2.1 (by decide),
   (report_date_stamps 5).2.2.2⟩

/-- C6: for a nonempty provider expiration list, the filter keeps exactly
the expirations between now and now + 30 days (inclusive) whenever at least
one falls in the window, and otherwise falls back to exactly the single
first expiration of the provider's list. -/
theorem nearest_expirations_spec (now e0 : ℕ) (es : List ℕ) :
    ((∃ e ∈ e0 :: es, now ≤ e ∧ e ≤ now + 30) →
      ∀ e, e ∈ nearest_expirations now (e0 :: es) ↔
        (e ∈ e0 :: es ∧ now ≤ e ∧ e ≤ now + 30))
    ∧ ((∀ e ∈ e0 :: es, ¬(now ≤ e ∧ e ≤ now + 30)) →
      nearest_expirations now (e0 :: es) = [e0]) := by
  constructor
  · rintro ⟨w, hw, hw1, hw2⟩ e
    unfold nearest_expirations
    rw [if_neg]
    · simp [List.mem_filter, and_assoc]
    · intro hemp
      rw [List.isEmpty_iff] at hemp
      have : w ∈ (e0 :: es).filter (fun e => decide (now ≤ e) && decide (e ≤ now + 30)) := by
        simp [List.mem_filter, hw, hw1, hw2]
      rw [hemp] at this
      exact absurd this (List.not_mem_nil w)
  · intro hall
    unfold nearest_expirations
    rw [if_pos]
    rw [List.isEmpty_iff, List.filter_eq_nil_iff]
    intro e he
    simp only [Bool.not_eq_true, Bool.and_eq_false_iff, decide_eq_false_iff_not]
    by_cases h1 : now ≤ e
    · exact Or.inr (fun h2 => hall e he ⟨h1, h2⟩)
    · exact Or.inl h1

/-- C6 witness: with now = 100, the list [105, 200] filters to [105]
(only 105 lies in the 30-day window), and the list [50, 200], none of whose
entries lie in the window, falls back to its first entry. -/
theorem nearest_expirations_spec_witness :
    (105 ∈ nearest_expirations 100 [105, 200] ↔
      (105 ∈ [105, 200] ∧ 100 ≤ 105 ∧ 105 ≤ 100 + 30))
    ∧ nearest_expirations 100 [50, 200] = [50] :=
  ⟨(nearest_expirations_spec 100 105 [200]).1 ⟨105, by decide, by decide, by decide⟩ 105,
   (nearest_expirations_spec 100 50 [200]).2 (by decide)⟩

theorem pyMin_le (x : ℚ) (xs : List ℚ) : ∀ y ∈ x :: xs, pyMin (x :: xs) ≤ y := by
  show ∀ y ∈ x :: xs, xs.foldl min x ≤ y
  induction xs generalizing x with
  | nil => intro y hy; simp at hy; simp [hy]
  | cons z zs ih =>
    intro y hy
    simp only [List.foldl_cons]
    rcases List.mem_cons.mp hy with rfl | hy'
    · exact le_trans (ih (min y z) (min y z) (by simp)) (min_le_left y z)
    · rcases List.mem_cons.mp hy' with rfl | hy''
      · exact le_trans (ih (min x y) (min x y) (by simp)) (min_le_right x y)
      · exact ih (min x z) y (by simp [hy''])

theorem pyMax_ge (x : ℚ) (xs : List ℚ) : ∀ y ∈ x :: xs, y ≤ pyMax (x :: xs) := by
  show ∀ y ∈ x :: xs, y ≤ xs.foldl max x
  induction xs generalizing x with
  | nil => intro y hy; simp at hy; simp [hy]
  | cons z zs ih =>
    intro y hy
    simp only [List.foldl_cons]
    rcases List.mem_cons.mp hy with rfl | hy'
    · exact le_trans (le_max_left y z) (ih (max y z) (max y z) (by simp))
    · rcases List.mem_cons.mp hy' with rfl | hy''
      · exact le_trans (le_max_right x y) (ih (max x y) (max x y) (by simp))
      · exact ih (max x z) y (by simp [hy''])

/-- C7 counterexample: for values [2, 3] the data range padded by 1 would
put the lower bound at `min - 1 = 1`, but the chart clamps the lower bound
to -1 whenever the minimum is non-negative. -/
theorem axisBounds_not_range_pad :
    axisBounds [2, 3] = (-1, 4) ∧ pyMin [2, 3] - 1 = 1
    ∧ (axisBounds [2, 3]).1 ≠ pyMin [2, 3] - 1 := by
  have hmin : pyMin [2, 3] = 2 := by
    show min (2 : ℚ) 3 = 2
    exact min_eq_left (by norm_num)
  have hmax : pyMax [2, 3] = 3 := by
    show max (2 : ℚ) 3 = 3
    exact max_eq_right (by norm_num)
  refine ⟨?_, ?_, ?_⟩
  · unfold axisBounds
    rw [hmin, hmax, if_neg (by norm_num), if_pos (by norm_num)]
    norm_num
  · rw [hmin]
    norm_num
  · unfold axisBounds
    rw [hmin, hmax, if_neg (by norm_num)]
    norm_num

/-- C7 amended: the value-axis bounds are `min - 1` only when the minimum is
negative and `max + 1` only when the maximum is positive, clamping to -1 and
1 otherwise; consequently the bounds strictly contain every data value and
always include the interval [-1, 1]. -/
theorem axisBounds_spec (x : ℚ) (xs : List ℚ) :
    axisBounds (x :: xs) =
      (if pyMin (x :: xs) < 0 then pyMin (x :: xs) - 1 else -1,
       if pyMax (x :: xs) > 0 then pyMax (x :: xs) + 1 else 1)
    ∧ (∀ y ∈ x :: xs,
        (axisBounds (x :: xs)).1 < y ∧ y < (axisBounds (x :: xs)).2)
    ∧ (axisBounds (x :: xs)).1 ≤ -1 ∧ 1 ≤ (axisBounds (x :: xs)).2 := by
  refine ⟨rfl, ?_, ?_, ?_⟩
  · intro y hy
    have hmin := pyMin_le x xs y hy
    have hmax := pyMax_ge x xs y hy
    unfold axisBounds
    constructor
    · dsimp only
      split_ifs with h
      · linarith
      · push_neg at h
        linarith
    · dsimp only
      split_ifs with h
      · linarith
      · push_neg at h
        linarith
  · unfold axisBounds
    dsimp only
    split_ifs with h
    · linarith
    · linarith
  · unfold axisBounds
    dsimp only
    split_ifs with h
    · linarith
    · linarith

/-- C7 witness: the amended statement at values [-2, 3]. -/
theorem axisBounds_spec_witness :
    (axisBounds [(-2 : ℚ), 3]).1 < -2 ∧ (-2 : ℚ) < (axisBounds [(-2 : ℚ), 3]).2 :=
  (axisBounds_spec (-2) [3]).2.1 (-2) (by simp)

theorem round_centi_pos : round ((123 / 100 : ℚ) * 100) = (123 : ℤ) := by
  rw [div_mul_cancel₀ _ (by norm_num : (100 : ℚ) ≠ 0)]
  rw [show (123 : ℚ) = ((123 : ℤ) : ℚ) by push_cast; ring]
  exact round_intCast 123

theorem round_centi_neg : round ((-45 / 100 : ℚ) * 100) = (-45 : ℤ) := by
  rw [div_mul_cancel₀ _ (by norm_num : (100 : ℚ) ≠ 0)]
  rw [show (-45 : ℚ) = ((-45 : ℤ) : ℚ) by push_cast; ring]
  exact round_intCast (-45)

theorem pyFloatStr_pos_example : pyFloatStr (123 / 100) = "1.23" := by
  simp only [pyFloatStr, round_centi_pos]
  decide

theorem pyFloatStr_neg_example : pyFloatStr (-45 / 100) = "-0.45" := by
  simp only [pyFloatStr, round_centi_neg]
  decide

/-- C8 counterexample: a change_percent of +1.23 is rendered in the bar
chart's category label as "1.23", without the explicit leading sign the
claim requires of every rendered percentage. -/
theorem bar_label_unsigned :
    bar_names [("X", some { symbol := "X", price := 10, change := 1,
                            change_percent := 123 / 100 })] = ["X(1.23%)"]
    ∧ ("X(1.23%)" : String) ≠ "X(+1.23%)" := by
  constructor
  · show [("X" : String) ++ "(" ++ pyFloatStr (123 / 100) ++ "%)"] = ["X(1.23%)"]
    rw [pyFloatStr_pos_example]
    decide
  · decide

/-- C8 amended: table cells render change and change_percent through the
"+.2f" format, whose first character is always an explicit sign; bar-chart
category labels render change_percent through plain `str()`, which keeps
the minus sign of negative values but adds no plus sign to non-negative
ones (e.g. "+1.23"/"-0.45" in the table vs "1.23"/"-0.45" in labels). -/
theorem render_sign_policy (name : String) (i : TickerRecord) :
    (table_row name (some i)).drop 3 = [fmtPlus2 i.change, fmtPlus2 i.change_percent]
    ∧ (∀ q : ℚ, (fmtPlus2 q).data.head? = some (if q < 0 then '-' else '+'))
    ∧ bar_names [(name, some i)] = [name ++ "(" ++ pyFloatStr i.change_percent ++ "%)"]
    ∧ pyFloatStr (123 / 100) = "1.23" ∧ pyFloatStr (-45 / 100) = "-0.45" := by
  refine ⟨rfl, ?_, rfl, pyFloatStr_pos_example, pyFloatStr_neg_example⟩
  intro q
  unfold fmtPlus2
  split_ifs with h
  · rw [String.data_append]
    rfl
  · rw [String.data_append]
    rfl

theorem sortByMtimeDesc_perm (files : List PdfFile) :
    List.Perm (sortByMtimeDesc files) files :=
  List.mergeSort_perm files _

theorem sortByMtimeDesc_head (files : List PdfFile) (h : files ≠ []) :
    ∃ s, (sortByMtimeDesc files).head? = some s ∧ s ∈ files ∧
      ∀ f ∈ files, f.mtime ≤ s.mtime := by
  have hsorted : (sortByMtimeDesc files).Pairwise
      (fun a b : PdfFile => decide (b.mtime ≤ a.mtime) = true) :=
    @List.sorted_mergeSort PdfFile
      (fun a b : PdfFile => decide (b.mtime ≤ a.mtime))
      (fun a b c h1 h2 => by
        simp only [decide_eq_true_eq] at *
        omega)
      (fun a b => by
        simp only [Bool.or_eq_true, decide_eq_true_eq]
        exact Nat.le_total b.mtime a.mtime)
      files
  cases hsort : sortByMtimeDesc files with
  | nil =>
    have hp := sortByMtimeDesc_perm files
    rw [hsort] at hp
    exact absurd hp.symm.eq_nil h
  | cons s rest =>
    have hp := sortByMtimeDesc_perm files
    rw [hsort] at hp hsorted
    refine ⟨s, rfl, hp.mem_iff.mp (List.mem_cons_self s rest), ?_⟩
    intro f hf
    rcases List.mem_cons.mp (hp.mem_iff.mpr hf) with rfl | hf''
    · exact le_refl _
    · have := (List.pairwise_cons.mp hsorted).1 f hf''
      simpa using this

/-- C4: `merge_pdfs` selects, for each of the two glob patterns, a most
recently modified match, concatenates the two documents in fixed order
(stock report's pages first, then option report's), deletes exactly those
two source files, and when either pattern matches zero files it returns
without writing or deleting anything. -/
theorem merge_pdfs_spec (today : ℕ) (stockReports optionReports : List PdfFile) :
    ((stockReports = [] ∨ optionReports = []) →
      merge_pdfs today stockReports optionReports = { output := none, deleted := [] })
    ∧ (stockReports ≠ [] → optionReports ≠ [] →
      ∃ s ∈ stockReports, ∃ o ∈ optionReports,
        (∀ f ∈ stockReports, f.mtime ≤ s.mtime) ∧
        (∀ f ∈ optionReports, f.mtime ≤ o.mtime) ∧
        merge_pdfs today stockReports optionReports =
          { output := some ("output/综合市场分析报告_" ++ toString today ++ ".pdf",
                            s.pages ++ o.pages),
            deleted := [s.path, o.path] }) := by
  have h0 : sortByMtimeDesc ([] : List PdfFile) = [] := List.mergeSort_nil
  constructor
  · rintro (rfl | rfl)
    · unfold merge_pdfs
      rw [h0]
      rfl
    · unfold merge_pdfs
      rw [h0]
      cases (sortByMtimeDesc stockReports).head? <;> rfl
  · intro hs ho
    obtain ⟨s, hshead, hsmem, hsmax⟩ := sortByMtimeDesc_head stockReports hs
    obtain ⟨o, hohead, homem, homax⟩ := sortByMtimeDesc_head optionReports ho
    refine ⟨s, hsmem, o, homem, hsmax, homax, ?_⟩
    unfold merge_pdfs
    rw [hshead, hohead]

/-- C4 witness: two patterns each matching a 2024-01-01 file and a
2024-01-02 file (later modification time 2): the 2024-01-02 file of each
pattern is selected, pages are concatenated stock-then-option, and both
selected sources are deleted. -/
theorem merge_pdfs_spec_witness :
    ∃ s ∈ [({ path := "美股市场每日数据_20240101.pdf", mtime := 1, pages := ["s1"] } : PdfFile),
           { path := "美股市场每日数据_20240102.pdf", mtime := 2, pages := ["s2"] }],
    ∃ o ∈ [({ path := "期权未平仓数据分析_20240101.pdf", mtime := 1, pages := ["o1"] } : PdfFile),
           { path := "期权未平仓数据分析_20240102.pdf", mtime := 2, pages := ["o2"] }],
      (∀ f ∈ [({ path := "美股市场每日数据_20240101.pdf", mtime := 1, pages := ["s1"] } : PdfFile),
              { path := "美股市场每日数据_20240102.pdf", mtime := 2, pages := ["s2"] }],
        f.mtime ≤ s.mtime) ∧
      (∀ f ∈ [({ path := "期权未平仓数据分析_20240101.pdf", mtime := 1, pages := ["o1"] } : PdfFile),
              { path := "期权未平仓数据分析_20240102.pdf", mtime := 2, pages := ["o2"] }],
        f.mtime ≤ o.mtime) ∧
      merge_pdfs 20240102
        [{ path := "美股市场每日数据_20240101.pdf", mtime := 1, pages := ["s1"] },
         { path := "美股市场每日数据_20240102.pdf", mtime := 2, pages := ["s2"] }]
        [{ path := "期权未平仓数据分析_20240101.pdf", mtime := 1, pages := ["o1"] },
         { path := "期权未平仓数据分析_20240102.pdf", mtime := 2, pages := ["o2"] }] =
        { output := some ("output/综合市场分析报告_" ++ toString 20240102 ++ ".pdf",
                          s.pages ++ o.pages),
          deleted := [s.path, o.path] } :=
  (merge_pdfs_spec 20240102
    [{ path := "美股市场每日数据_20240101.pdf", mtime := 1, pages := ["s1"] },
     { path := "美股市场每日数据_20240102.pdf", mtime := 2, pages := ["s2"] }]
    [{ path := "期权未平仓数据分析_20240101.pdf", mtime := 1, pages := ["o1"] },
     { path := "期权未平仓数据分析_20240102.pdf", mtime := 2, pages := ["o2"] }]).2
    (by simp) (by simp)

theorem fetchChains_ok_length {α : Type} (ch : ℕ → Except StepError α) :
    ∀ (l : List ℕ) (cs : List (ℕ × α)), fetchChains ch l = .ok cs →
      cs.length = l.length := by
  intro l
  induction l with
  | nil =>
    intro cs h
    simp only [fetchChains, Except.ok.injEq] at h
    simp [← h]
  | cons e rest ih =>
    intro cs h
    simp only [fetchChains] at h
    cases hc : ch e with
    | error s => rw [hc] at h; simp at h
    | ok c =>
      rw [hc] at h
      cases hr : fetchChains ch rest with
      | error s => rw [hr] at h; simp at h
      | ok cs' =>
        rw [hr] at h
        simp only [Except.ok.injEq] at h
        rw [← h]
        simp [ih cs' hr]

theorem fetchChains_all_ok {α : Type} (ch : ℕ → Except StepError α) :
    ∀ (l : List ℕ), (∀ e ∈ l, ∃ c, ch e = .ok c) →
      ∃ cs, fetchChains ch l = .ok cs ∧ cs.length = l.length := by
  intro l
  induction l with
  | nil => intro _; exact ⟨[], rfl, rfl⟩
  | cons e rest ih =>
    intro hall
    obtain ⟨c, hc⟩ := hall e (by simp)
    obtain ⟨cs, hcs, hlen⟩ := ih (fun e' he' => hall e' (by simp [he']))
    refine ⟨(e, c) :: cs, ?_, by simp [hlen]⟩
    simp only [fetchChains, hc, hcs]

theorem nearest_expirations_ne_nil (now e0 : ℕ) (es : List ℕ) :
    nearest_expirations now (e0 :: es) ≠ [] := by
  simp only [nearest_expirations]
  split
  · simp
  · rename_i hemp
    intro hnil
    exact hemp (by rw [hnil]; rfl)

theorem runAttempt_ok_ne_nil {α : Type} (now : ℕ) (a : OptionAttempt α)
    (chains : List (ℕ × α)) (p : Option ℚ)
    (h : runAttempt now a = .ok (chains, p)) : chains ≠ [] := by
  unfold runAttempt at h
  split at h
  · exact absurd h (by simp)
  · exact absurd h (by simp)
  · rename_i e0 es hopts
    split at h
    · exact absurd h (by simp)
    · rename_i cs hc
      simp only [Except.ok.injEq, Prod.mk.injEq] at h
      have hlen := fetchChains_ok_length a.chain _ cs hc
      have hne := nearest_expirations_ne_nil now e0 es
      rw [← h.1]
      intro hnil
      rw [hnil] at hlen
      exact hne (List.eq_nil_of_length_eq_zero hlen.symm)

theorem getOptionAux_some_ne_nil {α : Type} (now : ℕ) (att : ℕ → OptionAttempt α) :
    ∀ (f i : ℕ) (l : List (ℕ × α)) (p : Option ℚ) (sl : List ℕ),
      getOptionAux now att i f = ((some l, p), sl) → l ≠ [] := by
  intro f
  induction f with
  | zero => intro i l p sl h; simp [getOptionAux] at h
  | succ f ih =>
    intro i l p sl h
    rw [getOptionAux] at h
    cases hr : runAttempt now (att i) with
    | ok r =>
      rw [hr] at h
      simp only [Prod.mk.injEq, Option.some.injEq] at h
      obtain ⟨⟨h1, _⟩, _⟩ := h
      exact h1 ▸ runAttempt_ok_ne_nil now (att i) r.1 r.2 (by rw [hr])
    | error s =>
      rw [hr] at h
      cases f with
      | zero => simp at h
      | succ f' =>
        simp only [Prod.mk.injEq] at h
        obtain ⟨h1, _⟩ := h
        exact ih (i + 1) l p (getOptionAux now att (i + 1) (f' + 1)).2
          (by rw [← h1])

/-- C10: `get_option_data` succeeds independently of the price lookup — if
the first attempt's expirations and chain fetches succeed, the result is the
snapshot list paired with whatever the price fallback chain resolved to
(possibly `None`), with no sleep and no retry; and whenever the first
component of the result is not `None`, the snapshot list holds at least one
expiration. -/
theorem get_option_data_price_optional {α : Type} (now : ℕ)
    (att : ℕ → OptionAttempt α) :
    (∀ (e0 : ℕ) (es : List ℕ),
      (att 0).options = .ok (e0 :: es) →
      (∀ e ∈ nearest_expirations now (e0 :: es), ∃ c, (att 0).chain e = .ok c) →
      ∃ chains, chains ≠ [] ∧
        get_option_data now att = ((some chains, resolvePrice (att 0).info), []))
    ∧ (∀ (l : List (ℕ × α)) (p : Option ℚ) (sl : List ℕ),
        get_option_data now att = ((some l, p), sl) → l ≠ []) := by
  constructor
  · intro e0 es hopts hchain
    obtain ⟨cs, hcs, hlen⟩ := fetchChains_all_ok (att 0).chain _ hchain
    have hrun : runAttempt now (att 0) = .ok (cs, resolvePrice (att 0).info) := by
      unfold runAttempt
      simp only [hopts, hcs]
    refine ⟨cs, ?_, ?_⟩
    · intro hnil
      rw [hnil] at hlen
      exact nearest_expirations_ne_nil now e0 es
        (List.eq_nil_of_length_eq_zero hlen.symm)
    · rw [get_option_data, getOptionAux, hrun]
  · intro l p sl h
    exact getOptionAux_some_ne_nil now att 3 0 l p sl h

/-- C10 witness: expirations [105, 200] at now = 100, every chain fetch
succeeding, and the `ticker.info` call failing (`none`): the call still
returns a non-empty snapshot list paired with price `None`, immediately. -/
theorem get_option_data_price_optional_witness :
    ∃ chains, chains ≠ [] ∧
      get_option_data 100
          (fun _ => ({ options := .ok [105, 200], info := none,
                       chain := fun e => .ok (toString e) } : OptionAttempt String)) =
        ((some chains,
          resolvePrice ({ options := .ok [105, 200], info := none,
                          chain := fun e => .ok (toString e) } :
            OptionAttempt String).info), []) :=
  (get_option_data_price_optional 100
    (fun _ => ({ options := .ok [105, 200], info := none,
                 chain := fun e => .ok (toString e) } : OptionAttempt String))).1
    105 [200] rfl (fun e _ => ⟨toString e, rfl⟩)

end Stock
